import Mathlib

/-!
Verification of the shuntly call-interception and capture pipeline.

The development shallowly embeds the interception wrapper (`src/shuntly.ts`),
the record builder (`src/record.ts`) and the sink implementations
(`src/sinks.ts`): pure fragments become Lean functions, the streaming tap
becomes an explicit state machine driven by consumer actions, and the
system clock and operating-system responses become explicit parameters.
-/

namespace Shuntly

/-! ## Decimal rendering and fixed-width padding

Models the JS expressions `String(n)` and `String(n).padStart(w, "0")`
used by `SinkRotating.makeFilename` and by `Date.prototype.toISOString`.
-/

/-- Fuel-driven big-endian decimal digits; fuel at least n guarantees the
rendering is complete.  Structural recursion keeps it kernel-computable. -/
def decimalDigitsAux : Nat → Nat → List Nat
  | 0, n => [n]
  | f+1, n => if n < 10 then [n] else decimalDigitsAux f (n / 10) ++ [n % 10]

/-- Big-endian decimal digits of a natural number, exactly the digit
sequence JS `String(n)` renders for a nonnegative integer. -/
def decimalDigits (n : Nat) : List Nat := decimalDigitsAux n n

/-- Models JS `String(n)` for a nonnegative integer `n`. -/
def jsNumToString (n : Nat) : String := String.mk ((decimalDigits n).map Nat.digitChar)

/-- Models the JS expression `String(n).padStart(w, "0")`: left-pads the
decimal rendering with zeros up to width `w`, never truncating. -/
def jsPad (w n : Nat) : String :=
  let s := jsNumToString n
  String.mk (List.replicate (w - s.length) '0') ++ s

/-- Exactly `w` decimal digits of `n`, big-endian (leading zeros kept). -/
def digitsFixed : Nat → Nat → List Nat
  | 0, _ => []
  | w+1, n => n / 10 ^ w :: digitsFixed w (n % 10 ^ w)

/-- The characters of a `w`-digit zero-padded decimal rendering. -/
def padData (w n : Nat) : List Char := (digitsFixed w n).map Nat.digitChar

/-- Fixed-width zero-padded decimal rendering as a string. -/
def padNum (w n : Nat) : String := String.mk (padData w n)

/-! ## The wall clock

`Date.prototype.toISOString` and `SinkRotating.makeFilename` read the UTC
civil clock; we model an instant by its civil fields.  `month` is the
human month 1..12, i.e. JS `getUTCMonth() + 1`. -/

/-- A UTC civil-clock instant at millisecond resolution. -/
structure Timestamp where
  year : Nat
  month : Nat
  day : Nat
  hour : Nat
  minute : Nat
  second : Nat
  milli : Nat
deriving DecidableEq

/-- Field bounds of a real calendar instant (with a four-digit year). -/
def Timestamp.valid (t : Timestamp) : Prop :=
  1000 ≤ t.year ∧ t.year ≤ 9999 ∧ 1 ≤ t.month ∧ t.month ≤ 12 ∧
  1 ≤ t.day ∧ t.day ≤ 31 ∧ t.hour ≤ 23 ∧ t.minute ≤ 59 ∧
  t.second ≤ 59 ∧ t.milli ≤ 999

instance (t : Timestamp) : Decidable t.valid := by
  unfold Timestamp.valid
  infer_instance

/-- Strict chronological order on civil instants: lexicographic on the
fields, which for the UTC civil clock coincides with real time order. -/
def Timestamp.earlier (a b : Timestamp) : Prop :=
  a.year < b.year ∨ (a.year = b.year ∧
    (a.month < b.month ∨ (a.month = b.month ∧
      (a.day < b.day ∨ (a.day = b.day ∧
        (a.hour < b.hour ∨ (a.hour = b.hour ∧
          (a.minute < b.minute ∨ (a.minute = b.minute ∧
            (a.second < b.second ∨ (a.second = b.second ∧
              a.milli < b.milli)))))))))))

instance (a b : Timestamp) : Decidable (a.earlier b) := by
  unfold Timestamp.earlier
  infer_instance

/-- Models `Date.prototype.toISOString`: the fixed 24-character UTC
rendering with millisecond precision, as stamped into records by
`ShuntlyRecord.build`. -/
def isoString (t : Timestamp) : String :=
  jsNumToString t.year ++ "-" ++ jsPad 2 t.month ++ "-" ++ jsPad 2 t.day ++
  "T" ++ jsPad 2 t.hour ++ ":" ++ jsPad 2 t.minute ++ ":" ++ jsPad 2 t.second ++
  "." ++ jsPad 3 t.milli ++ "Z"

/-- Translation of `SinkRotating.makeFilename` from `src/sinks.ts`: the
UTC fields of the clock plus three extra digits drawn from
`Math.floor(Math.random() * 1000)`, passed here as `r`. -/
def makeFilename (t : Timestamp) (r : Nat) : String :=
  jsNumToString t.year ++ "-" ++ jsPad 2 t.month ++ "-" ++ jsPad 2 t.day ++
  "T" ++ jsPad 2 t.hour ++ jsPad 2 t.minute ++ jsPad 2 t.second ++
  "." ++ jsPad 3 t.milli ++ jsPad 3 r ++ "Z" ++ ".jsonl"

/-! ## The JS value model and request derivation -/

/-- Shallow model of the JS values that flow through the wrapper. -/
inductive JSValue where
  | null : JSValue
  | undef : JSValue
  | bool : Bool → JSValue
  | num : Int → JSValue
  | str : String → JSValue
  | arr : List JSValue → JSValue
  | obj : List (String × JSValue) → JSValue

/-- Models the JS test `typeof v === "object"`: true for null, arrays and
plain objects, false for primitives and undefined. -/
def typeofIsObject : JSValue → Bool
  | .null => true
  | .arr _ => true
  | .obj _ => true
  | _ => false

/-- Models the JS comparison `v === null`. -/
def isNull : JSValue → Bool
  | .null => true
  | _ => false

/-- Models `Array.isArray`. -/
def isArray : JSValue → Bool
  | .arr _ => true
  | _ => false

/-- True exactly for plain key-value objects. -/
def isPlainObject : JSValue → Bool
  | .obj _ => true
  | _ => false

/-- The fallback request shape (the TS objects both wrappers build). -/
def wrapArgs (args : List JSValue) : JSValue := .obj [("args", .arr args)]

/-- Translation of the request derivation in `createWrapper`
(src/shuntly.ts): `args.length === 1 && typeof args[0] === "object" &&
args[0] !== null ? args[0] : { args }`. -/
def methodRequest (args : List JSValue) : JSValue :=
  if args.length = 1 ∧ typeofIsObject (args.getD 0 .undef) = true ∧
      isNull (args.getD 0 .undef) = false
  then args.getD 0 .undef
  else wrapArgs args

/-- Translation of the request derivation in the standalone-function
wrapper (src/shuntly.ts): `args.length >= 2 && args[1] !== null && typeof
args[1] === "object" && !Array.isArray(args[1]) ? args[1] : { args }`. -/
def standaloneRequest (args : List JSValue) : JSValue :=
  if 2 ≤ args.length ∧ isNull (args.getD 1 .undef) = false ∧
      typeofIsObject (args.getD 1 .undef) = true ∧ isArray (args.getD 1 .undef) = false
  then args.getD 1 .undef
  else wrapArgs args

/-- The spec-side predicate "a non-null object" (JS `typeof` object and
not the null value). -/
def nonNullObject (v : JSValue) : Prop := typeofIsObject v = true ∧ isNull v = false

instance (v : JSValue) : Decidable (nonNullObject v) := by
  unfold nonNullObject
  infer_instance

/-! ## The interception wrapper and the streaming tap

`createWrapper` classifies the call result (sync value, sync throw,
promise, async iterable) and `wrapAsyncIterable` overlays the iteration
protocol.  We embed the tapped iterator as a state machine over the
underlying sequence, driven by explicit consumer actions, and collect every
record the `recordAndWrite` callbacks emit. -/

/-- A JS Error object; `objId` distinguishes distinct objects that carry
the same name and message, so propagation of the very same object is
expressible. -/
structure ErrorObj where
  name : String
  message : String
  objId : Nat
deriving DecidableEq

/-- The string `err.name + ": " + err.message` the wrapper stores. -/
def errStr (e : ErrorObj) : String := e.name ++ ": " ++ e.message

/-- The response/error payload of one capture record, as produced by the
calls to `recordAndWrite` in `createWrapper`. -/
structure RecM where
  response : JSValue
  error : Option String

/-- The underlying async sequence: it yields `items` in order and then
either finishes cleanly (`tailErr = none`) or raises (`tailErr = some e`). -/
structure StreamSpec where
  items : List JSValue
  tailErr : Option ErrorObj

/-- Consumer actions on a tapped sequence: `anext` and `aret` call the
instrumented iterator, `onext` steps an uninstrumented iterator obtained
from a second call to the async-iterator entry point (which
`wrapAsyncIterable` returns untapped). -/
inductive StreamAct where
  | anext : StreamAct
  | aret : StreamAct
  | onext : StreamAct
deriving DecidableEq

/-- State of the tapped iterator made by `wrapAsyncIterable`: position in
the underlying sequence, whether the inner iterator has finished (done
reached, error raised, or return called), and the accumulated chunks. -/
structure TapState where
  pos : Nat
  innerDone : Bool
  chunks : List JSValue

/-- One consumer action against the tapped iterator, returning the next
state and the records emitted by the completion/error callbacks.  Mirrors
the `next`/`return` methods installed by `wrapAsyncIterable`: a done
result fires `onComplete(chunks)`, a yielded value is buffered, an inner
throw fires `onError` and re-raises, and `return` fires
`onComplete(chunks)` unconditionally before delegating. -/
def stepTap (sp : StreamSpec) (st : TapState) : StreamAct → TapState × List RecM
  | .anext =>
    if st.innerDone then
      (st, [⟨.arr st.chunks, none⟩])
    else if h : st.pos < sp.items.length then
      ({ st with pos := st.pos + 1, chunks := st.chunks ++ [sp.items.get ⟨st.pos, h⟩] }, [])
    else
      match sp.tailErr with
      | some e => ({ st with innerDone := true }, [⟨.null, some (errStr e)⟩])
      | none => ({ st with innerDone := true }, [⟨.arr st.chunks, none⟩])
  | .aret => ({ st with innerDone := true }, [⟨.arr st.chunks, none⟩])
  | .onext =>
    if st.innerDone then (st, [])
    else if st.pos < sp.items.length then ({ st with pos := st.pos + 1 }, [])
    else ({ st with innerDone := true }, [])

/-- Run a list of consumer actions from a given tap state, collecting all
records emitted along the way. -/
def driveFrom (sp : StreamSpec) : TapState → List StreamAct → List RecM
  | _, [] => []
  | st, a :: rest =>
    let out := stepTap sp st a
    out.2 ++ driveFrom sp out.1 rest

/-- Records emitted when a consumer drives a freshly tapped sequence. -/
def driveTap (sp : StreamSpec) (acts : List StreamAct) : List RecM :=
  driveFrom sp ⟨0, false, []⟩ acts

/-- The classified outcome of invoking the original callable. -/
inductive CallOutcome where
  | retVal : JSValue → CallOutcome
  | retStream : StreamSpec → CallOutcome
  | throwE : ErrorObj → CallOutcome
  | promiseVal : JSValue → CallOutcome
  | promiseStream : StreamSpec → CallOutcome
  | promiseRej : ErrorObj → CallOutcome

/-- What the caller of the wrapped function observes. -/
inductive CallerResult where
  | value : JSValue → CallerResult
  | tapped : CallerResult
  | raised : ErrorObj → CallerResult
  | rejected : ErrorObj → CallerResult

/-- Translation of the result handling in `createWrapper` (and the
identical standalone wrapper): the records written for one invocation,
where a streaming outcome defers its records to the consumer actions
`acts`, together with what the caller observes. -/
def runWrapped (o : CallOutcome) (acts : List StreamAct) : List RecM × CallerResult :=
  match o with
  | .retVal v => ([⟨v, none⟩], .value v)
  | .throwE e => ([⟨.null, some (errStr e)⟩], .raised e)
  | .promiseVal v => ([⟨v, none⟩], .value v)
  | .promiseRej e => ([⟨.null, some (errStr e)⟩], .rejected e)
  | .retStream sp => (driveTap sp acts, .tapped)
  | .promiseStream sp => (driveTap sp acts, .tapped)

/-! ## The record builder and capture timing

`ShuntlyRecord.build` (src/record.ts) stamps `new Date().toISOString()`
when it runs; `recordAndWrite` runs it at the completion of the
invocation, passing `performance.now() - startTime` as the duration. -/

/-- Process-identity metadata fixed at build time. -/
structure ProcIdentity where
  hostname : String
  user : String
  pid : Nat
deriving DecidableEq

/-- A built capture record (src/record.ts). -/
structure ShuntlyRecordM where
  timestamp : String
  hostname : String
  user : String
  pid : Nat
  client : String
  method : String
  request : JSValue
  response : JSValue
  durationMs : Nat
  error : Option String

/-- Translation of `ShuntlyRecord.build`: `now` is the wall clock read by
`new Date()` at the moment build executes. -/
def ShuntlyRecordM.build (now : Timestamp) (ident : ProcIdentity)
    (client method : String) (request response : JSValue)
    (durationMs : Nat) (error : Option String) : ShuntlyRecordM :=
  { timestamp := isoString now
    hostname := ident.hostname
    user := ident.user
    pid := ident.pid
    client := client
    method := method
    request := request
    response := response
    durationMs := durationMs
    error := error }

/-- The observable clock instants of one invocation: `startPerf` is the
monotonic reading taken on entry, `endPerf` the reading when
`recordAndWrite` runs, `wallStart` the wall clock on entry (never read by
the code) and `wallEnd` the wall clock when `ShuntlyRecord.build` runs. -/
structure InvocationTimes where
  startPerf : Nat
  endPerf : Nat
  wallStart : Timestamp
  wallEnd : Timestamp
deriving DecidableEq

/-- Translation of `recordAndWrite` in `createWrapper`: computes the
duration from the monotonic clock and builds the record at completion
time. -/
def recordAndWrite (tm : InvocationTimes) (ident : ProcIdentity)
    (client method : String) (request response : JSValue)
    (error : Option String) : ShuntlyRecordM :=
  ShuntlyRecordM.build tm.wallEnd ident client method request response
    (tm.endPerf - tm.startPerf) error

/-! ## The method registry and object wrapping (`shunt`) -/

/-- Translation of `METHOD_REGISTRY` from `src/shuntly.ts`. -/
def METHOD_REGISTRY : List (String × List String) :=
  [("Anthropic", ["messages.create", "messages.stream"]),
   ("OpenAI", ["chat.completions.create"]),
   ("GoogleGenAI", ["models.generateContent", "models.generateContentStream"])]

/-- Translation of the object-wrapping path of `shunt`: the client is the
list of its method paths; on success each listed path is marked wrapped
and no record is written; an unknown client with no explicit list raises
the configuration error before anything is patched or written. -/
def shuntObject (clientMethods : List String) (clientName : String)
    (methods : Option (List String)) :
    Except String (List (String × Bool) × List RecM) :=
  let resolved := match methods with
    | some ms => some ms
    | none => (METHOD_REGISTRY.find? (fun (p : String × List String) => p.1 == clientName)).map Prod.snd
  match resolved with
  | none => .error ("Unknown client \"" ++ clientName ++
      "\". Pass methods option to specify which methods to patch.")
  | some ms => .ok (clientMethods.map (fun m => (m, ms.contains m)), [])

/-! ## The rotating sink (`SinkRotating` in `src/sinks.ts`)

The directory is modelled as the list of its entries; `prune` and
`ensureOpen` become pure state transformers that also report which files
were deleted. -/

/-- A directory entry as seen by `prune`: its file name and size. -/
structure FileEnt where
  name : String
  size : Nat
deriving DecidableEq

/-- Total size of a list of entries, as summed by `prune`. -/
def totalSize (l : List FileEnt) : Nat := (l.map FileEnt.size).sum

/-- The oldest-first ordering used by `prune`: JS
`entries.sort((a, b) => a.path.localeCompare(b.path))`, lexicographic on
the (ASCII) file names. -/
def sortByName (l : List FileEnt) : List FileEnt :=
  l.insertionSort (fun a b => a.name ≤ b.name)

/-- Translation of the deletion loop in `SinkRotating.prune`: walk the
oldest-first entries, stopping once the running total is within the
ceiling, or the list is exhausted, or the oldest entry is the file
currently open for append; otherwise delete the oldest and continue.
Returns (remaining, deleted). -/
def pruneLoop (current : Option String) (maxDir : Int) :
    List FileEnt → Int → List FileEnt × List FileEnt
  | [], _ => ([], [])
  | e :: rest, total =>
    if total ≤ maxDir then (e :: rest, [])
    else if current == some e.name then (e :: rest, [])
    else
      let out := pruneLoop current maxDir rest (total - (e.size : Int))
      (out.1, e :: out.2)

/-- Translation of `SinkRotating.prune`: a non-positive directory ceiling
returns immediately; otherwise the qualifying (`.jsonl`) entries are
sorted oldest-first by name and the deletion loop runs on them.  `files`
is the directory listing restricted to regular files; non-qualifying
files are returned untouched alongside the loop result. -/
def prune (files : List FileEnt) (current : Option String) (maxDir : Int) :
    List FileEnt × List FileEnt :=
  if maxDir ≤ 0 then (files, [])
  else
    let entries := sortByName (files.filter (fun f => f.name.endsWith ".jsonl"))
    let kept := files.filter (fun f => !(f.name.endsWith ".jsonl"))
    let out := pruneLoop current maxDir entries ((totalSize entries : Int))
    (kept ++ out.1, out.2)

/-- State of a `SinkRotating` instance together with its directory. -/
structure RotState where
  fd : Option Nat
  filePath : Option String
  fileSize : Nat
  maxBytesFile : Nat
  maxBytesDir : Int
  dirFiles : List FileEnt
deriving DecidableEq

/-- Translation of `SinkRotating.openNewFile`: close any open descriptor,
create a fresh empty file named `newName` and make it current. -/
def openNewFile (st : RotState) (newName : String) (newFd : Nat) : RotState :=
  { st with
    fd := some newFd
    filePath := some newName
    fileSize := 0
    dirFiles := st.dirFiles ++ [⟨newName, 0⟩] }

/-- Translation of `SinkRotating.ensureOpen`: with no open file, open one
(no pruning); with an open file below the per-file limit, do nothing;
once the current file has reached `maxBytesFile`, prune and then rotate
to a fresh file. -/
def ensureOpen (st : RotState) (newName : String) (newFd : Nat) : RotState :=
  match st.fd with
  | none => openNewFile st newName newFd
  | some _ =>
    if st.fileSize ≥ st.maxBytesFile then
      let out := prune st.dirFiles st.filePath st.maxBytesDir
      openNewFile { st with dirFiles := out.1 } newName newFd
    else st

/-! ## Idempotent close across the sink implementations

Each sink closes by releasing its descriptor, if any, and resetting its
descriptor state; the emitted list records which descriptors were closed
(the side effect of `fs.closeSync`). -/

/-- Descriptor state of the stream, file, pipe and rotating sinks. -/
inductive SinkSt where
  | stream : SinkSt
  | file : Option Nat → SinkSt
  | pipe : Option Nat → SinkSt
  | rotating : Option Nat → Option String → Nat → SinkSt
deriving DecidableEq

/-- Translation of the `close` methods of `SinkStream` (a no-op),
`SinkFile`, `SinkPipe` and `SinkRotating` (close the descriptor if open
and reset the descriptor state). -/
def closeSink : SinkSt → SinkSt × List Nat
  | .stream => (.stream, [])
  | .file none => (.file none, [])
  | .file (some k) => (.file none, [k])
  | .pipe none => (.pipe none, [])
  | .pipe (some k) => (.pipe none, [k])
  | .rotating none p sz => (.rotating none p sz, [])
  | .rotating (some k) _ _ => (.rotating none none 0, [k])

/-- Translation of `SinkMany.close`: close every child sink in order. -/
def closeMany (ss : List SinkSt) : List SinkSt × List Nat :=
  (ss.map (fun s => (closeSink s).1), (ss.map (fun s => (closeSink s).2)).flatten)

/-! ## The pipe sink (`SinkPipe` in `src/sinks.ts`)

`write` interacts with the operating system through `openSync` and
`writeSync`; we pass the responses of those calls explicitly and run the
retry loop over the finite list of responses supplied. -/

/-- Outcome of the non-blocking `openSync` on the FIFO. -/
inductive OpenRes where
  | fd : Nat → OpenRes
  | enxio : OpenRes
  | oerr : String → OpenRes
deriving DecidableEq

/-- Outcome of one `writeSync` call inside the retry loop. -/
inductive WriteRes where
  | wrote : Nat → WriteRes
  | eagain : WriteRes
  | epipe : WriteRes
  | werr : String → WriteRes
deriving DecidableEq

/-- Descriptor state of a `SinkPipe` instance. -/
structure PipeSt where
  fd : Option Nat
deriving DecidableEq

/-- How one `SinkPipe.write` call ends. -/
inductive PipeOutcome where
  | flushed : Nat → PipeOutcome
  | droppedNoReader : PipeOutcome
  | droppedDisconnect : PipeOutcome
  | raised : String → PipeOutcome
  | pending : Nat → PipeOutcome
deriving DecidableEq

/-- Translation of `SinkPipe.ensureOpen`: an already-open descriptor is
reused without touching the OS; otherwise the FIFO is opened
non-blocking, where ENXIO (no reader) yields no descriptor and any other
failure is re-raised.  The boolean reports whether an open was
attempted. -/
def ensureOpenPipe (st : PipeSt) (r : OpenRes) :
    Except String (PipeSt × Option Nat × Bool) :=
  match st.fd with
  | some k => .ok (st, some k, false)
  | none =>
    match r with
    | .fd k => .ok (⟨some k⟩, some k, true)
    | .enxio => .ok (⟨none⟩, none, true)
    | .oerr c => .error c

/-- Translation of the retry loop in `SinkPipe.write`: keep calling
`writeSync` while fewer than `len` bytes are flushed; a successful write
advances the offset, EAGAIN retries, EPIPE closes the descriptor and
drops the record, and any other error is re-raised.  The supplied
response list bounds how many OS interactions the model observes; if it
runs out before the line is flushed the outcome is `pending`. -/
def writeLoop (len : Nat) (st : PipeSt) : Nat → List WriteRes → PipeOutcome × PipeSt
  | offset, [] =>
    if len ≤ offset then (.flushed offset, st) else (.pending offset, st)
  | offset, r :: rest =>
    if len ≤ offset then (.flushed offset, st)
    else
      match r with
      | .wrote n => writeLoop len st (offset + n) rest
      | .eagain => writeLoop len st offset rest
      | .epipe => (.droppedDisconnect, ⟨none⟩)
      | .werr c => (.raised c, st)

/-- Translation of `SinkPipe.write` (the full-record variant): ensure the
FIFO is open; with no reader the record is silently dropped; otherwise
run the retry loop.  The boolean reports whether an open was attempted. -/
def pipeWrite (st : PipeSt) (len : Nat) (openR : OpenRes) (script : List WriteRes) :
    Except String (PipeOutcome × PipeSt × Bool) :=
  match ensureOpenPipe st openR with
  | .error c => .error c
  | .ok (st1, none, att) => .ok (.droppedNoReader, st1, att)
  | .ok (st1, some _, att) =>
    let out := writeLoop len st1 0 script
    .ok (out.1, out.2, att)

/-! ## Properties of the decimal renderings -/

theorem decimalDigitsAux_fuel_irrel : ∀ f g n, n ≤ f → n ≤ g →
    decimalDigitsAux f n = decimalDigitsAux g n := by
  intro f
  induction f with
  | zero =>
    intro g n hf hg
    interval_cases n
    cases g <;> simp [decimalDigitsAux]
  | succ f ih =>
    intro g n hf hg
    cases g with
    | zero =>
      interval_cases n
      simp [decimalDigitsAux]
    | succ g =>
      simp only [decimalDigitsAux]
      by_cases h : n < 10
      · simp [h]
      · simp only [h, if_false]
        have hdiv : n / 10 ≤ f := by
          have := Nat.div_lt_self (n := n) (by omega) (by omega : 1 < 10)
          omega
        have hdiv2 : n / 10 ≤ g := by
          have := Nat.div_lt_self (n := n) (by omega) (by omega : 1 < 10)
          omega
        rw [ih g (n / 10) hdiv hdiv2]

theorem decimalDigits_eq (n : Nat) :
    decimalDigits n = if n < 10 then [n] else decimalDigits (n / 10) ++ [n % 10] := by
  by_cases h : n < 10
  · simp only [h, if_true]
    unfold decimalDigits
    cases n with
    | zero => rfl
    | succ m => simp [decimalDigitsAux, h]
  · simp only [h, if_false]
    unfold decimalDigits
    cases n with
    | zero => omega
    | succ m =>
      simp only [decimalDigitsAux, h, if_false]
      congr 1
      exact decimalDigitsAux_fuel_irrel m ((m+1)/10) ((m+1)/10)
        (by have := Nat.div_lt_self (n := m+1) (by omega) (by omega : 1 < 10); omega)
        (le_refl _)

theorem digitsFixed_length (w : Nat) : ∀ n, (digitsFixed w n).length = w := by
  induction w with
  | zero => intro n; rfl
  | succ w ih => intro n; simp [digitsFixed, ih]

theorem digitsFixed_snoc (w : Nat) : ∀ n, n < 10 ^ (w + 1) →
    digitsFixed (w + 1) n = digitsFixed w (n / 10) ++ [n % 10] := by
  induction w with
  | zero =>
    intro n hn
    simp only [digitsFixed, pow_zero, Nat.div_one, pow_one] at *
    have hm : n % 10 = n := Nat.mod_eq_of_lt hn
    have hz : n / 10 = 0 := Nat.div_eq_of_lt hn
    simp [hm, hz, List.nil_append]
  | succ w ih =>
    intro n hn
    have h1 : n / 10 ^ (w + 1) = n / 10 / 10 ^ w := by
      rw [Nat.div_div_eq_div_mul, Nat.pow_succ]
      ring_nf
    have h2 : n % 10 ^ (w + 1) % 10 = n % 10 :=
      Nat.mod_mod_of_dvd n (dvd_pow_self 10 (by omega))
    have h3 : n % 10 ^ (w + 1) / 10 = n / 10 % 10 ^ w := by
      rw [Nat.pow_succ']
      rw [Nat.mod_mul_right_div_self]
    have hlt : n % 10 ^ (w + 1) < 10 ^ (w + 1) := Nat.mod_lt _ (Nat.pos_pow_of_pos _ (by omega))
    calc digitsFixed (w + 2) n = n / 10 ^ (w + 1) :: digitsFixed (w + 1) (n % 10 ^ (w + 1)) := rfl
      _ = n / 10 ^ (w + 1) :: (digitsFixed w (n % 10 ^ (w + 1) / 10) ++ [n % 10 ^ (w + 1) % 10]) := by
          rw [ih _ hlt]
      _ = n / 10 / 10 ^ w :: (digitsFixed w (n / 10 % 10 ^ w) ++ [n % 10]) := by rw [h1, h2, h3]
      _ = digitsFixed (w + 1) (n / 10) ++ [n % 10] := rfl

theorem digitsFixed_eq_pad_decimal : ∀ w n, 1 ≤ w → n < 10 ^ w →
    digitsFixed w n = List.replicate (w - (decimalDigits n).length) 0 ++ decimalDigits n := by
  intro w
  induction w with
  | zero => omega
  | succ w ih =>
    intro n _ hn
    by_cases hw : w = 0
    · subst hw
      have hn10 : n < 10 := by simpa using hn
      rw [decimalDigits_eq]
      simp only [hn10, if_true]
      have h1 : digitsFixed 1 n = [n] := by
        show n / 10 ^ 0 :: digitsFixed 0 (n % 10 ^ 0) = [n]
        simp [digitsFixed]
      rw [h1]
      norm_num
    · by_cases hsmall : n < 10 ^ w
      · have hd : n / 10 ^ w = 0 := Nat.div_eq_of_lt hsmall
        have hm : n % 10 ^ w = n := Nat.mod_eq_of_lt hsmall
        have heq := ih n (by omega) hsmall
        have hlen : (decimalDigits n).length ≤ w := by
          have h2 := digitsFixed_length w n
          rw [heq] at h2
          simp at h2
          omega
        rw [show digitsFixed (w + 1) n = n / 10 ^ w :: digitsFixed w (n % 10 ^ w) from rfl,
          hd, hm, heq]
        rw [show w + 1 - (decimalDigits n).length = (w - (decimalDigits n).length) + 1 by omega]
        simp [List.replicate_succ]
      · have hge : 10 ≤ n := by
          have h10 : (10:Nat) ^ 1 ≤ 10 ^ w := Nat.pow_le_pow_right (by omega) (by omega)
          simp only [pow_one] at h10
          omega
        have hdive : n / 10 < 10 ^ w := by
          rw [Nat.div_lt_iff_lt_mul (by omega)]
          rw [Nat.pow_succ] at hn
          omega
        rw [digitsFixed_snoc w n hn]
        rw [decimalDigits_eq]
        simp only [Nat.not_lt.mpr hge, if_false]
        rw [ih (n / 10) (by omega) hdive]
        have hlen1 : 1 ≤ (decimalDigits (n / 10)).length := by
          rw [decimalDigits_eq]
          split <;> simp
        simp only [List.length_append, List.length_singleton]
        rw [show w + 1 - ((decimalDigits (n / 10)).length + 1) = w - (decimalDigits (n / 10)).length by omega]
        simp

theorem mk_append_mk (a b : List Char) : String.mk a ++ String.mk b = String.mk (a ++ b) := rfl

theorem jsPad_eq_padNum (w n : Nat) (hw : 1 ≤ w) (hn : n < 10 ^ w) :
    jsPad w n = padNum w n := by
  unfold jsPad jsNumToString padNum padData
  rw [digitsFixed_eq_pad_decimal w n hw hn]
  simp only [List.map_append, List.map_replicate]
  rw [mk_append_mk]
  have hl : (String.mk ((decimalDigits n).map Nat.digitChar)).length
      = (decimalDigits n).length := by
    show ((decimalDigits n).map Nat.digitChar).length = _
    simp
  rw [hl, show Nat.digitChar 0 = (Char.ofNat 48) from rfl]

theorem jsNum_eq_padNum (w n : Nat) (hlo : 10 ^ w ≤ n) (hhi : n < 10 ^ (w + 1)) :
    jsNumToString n = padNum (w + 1) n := by
  have heq := digitsFixed_eq_pad_decimal (w + 1) n (by omega) hhi
  have hlen : (decimalDigits n).length ≤ w + 1 := by
    have h2 := digitsFixed_length (w + 1) n
    rw [heq] at h2
    simp at h2
    omega
  have hzero : w + 1 - (decimalDigits n).length = 0 := by
    by_contra hne
    have hpos : 0 < w + 1 - (decimalDigits n).length := by omega
    have hhead : (digitsFixed (w + 1) n).head? = some 0 := by
      rw [heq]
      cases hrep : List.replicate (w + 1 - (decimalDigits n).length) (0 : Nat) with
      | nil =>
        have := List.length_replicate (w + 1 - (decimalDigits n).length) (0 : Nat)
        rw [hrep] at this
        simp at this
        omega
      | cons a as =>
        have ha : a = 0 := by
          have := List.eq_of_mem_replicate (by rw [hrep]; exact List.mem_cons_self a as)
          exact this
        simp [hrep, ha]
    have hhead2 : (digitsFixed (w + 1) n).head? = some (n / 10 ^ w) := rfl
    rw [hhead2] at hhead
    have : n / 10 ^ w = 0 := by simpa using hhead
    have : n < 10 ^ w := (Nat.div_eq_zero_iff (Nat.pos_pow_of_pos _ (by omega))).mp this
    omega
  rw [hzero] at heq
  simp at heq
  unfold jsNumToString padNum padData
  rw [heq]

theorem digitsFixed_lt (w : Nat) : ∀ n m, n < m → m < 10 ^ w →
    List.Lex (· < ·) (digitsFixed w n) (digitsFixed w m) := by
  induction w with
  | zero =>
    intro n m hnm hm
    simp at hm
    omega
  | succ w ih =>
    intro n m hnm hm
    have hdle : n / 10 ^ w ≤ m / 10 ^ w := Nat.div_le_div_right (by omega)
    rcases Nat.lt_or_ge (n / 10 ^ w) (m / 10 ^ w) with hlt | hge
    · exact List.Lex.rel hlt
    · have hdeq : n / 10 ^ w = m / 10 ^ w := by omega
      have hmod : n % 10 ^ w < m % 10 ^ w := by
        have h1 := Nat.div_add_mod n (10 ^ w)
        have h2 := Nat.div_add_mod m (10 ^ w)
        rw [hdeq] at h1
        omega
      have hmlt : m % 10 ^ w < 10 ^ w := Nat.mod_lt _ (Nat.pos_pow_of_pos _ (by omega))
      show List.Lex (· < ·) (n / 10 ^ w :: digitsFixed w (n % 10 ^ w))
        (m / 10 ^ w :: digitsFixed w (m % 10 ^ w))
      rw [hdeq]
      exact List.Lex.cons (ih _ _ hmod hmlt)

theorem digitsFixed_all_lt (w : Nat) : ∀ n, n < 10 ^ w → ∀ d ∈ digitsFixed w n, d < 10 := by
  induction w with
  | zero => intro n _ d hd; simp [digitsFixed] at hd
  | succ w ih =>
    intro n hn d hd
    simp only [digitsFixed, List.mem_cons] at hd
    rcases hd with h | h
    · subst h
      rw [Nat.div_lt_iff_lt_mul (Nat.pos_pow_of_pos _ (by omega))]
      calc n < 10 ^ (w + 1) := hn
        _ = 10 * 10 ^ w := by ring
    · exact ih _ (Nat.mod_lt _ (Nat.pos_pow_of_pos _ (by omega))) d h

theorem digitChar_mono : ∀ a b : Fin 10, a < b → Nat.digitChar a.val < Nat.digitChar b.val := by
  decide

theorem lex_map_digitChar : ∀ l1 l2 : List Nat, (∀ d ∈ l1, d < 10) → (∀ d ∈ l2, d < 10) →
    List.Lex (· < ·) l1 l2 →
    List.Lex (· < ·) (l1.map Nat.digitChar) (l2.map Nat.digitChar) := by
  intro l1 l2 h1 h2 hlex
  induction hlex with
  | nil => exact List.Lex.nil
  | @rel a as b bs hab =>
    exact List.Lex.rel (digitChar_mono ⟨a, h1 a (by simp)⟩ ⟨b, h2 b (by simp)⟩ hab)
  | @cons a as bs _ ih =>
    exact List.Lex.cons (ih (fun d hd => h1 d (by simp [hd])) (fun d hd => h2 d (by simp [hd])))

theorem lex_append_left (r : Char → Char → Prop) :
    ∀ (p a b : List Char), List.Lex r a b → List.Lex r (p ++ a) (p ++ b) := by
  intro p
  induction p with
  | nil => intro a b h; exact h
  | cons c cs ih => intro a b h; exact List.Lex.cons (ih a b h)

theorem lex_append_eqlen : ∀ (a b c d : List Char), a.length = b.length →
    List.Lex (· < ·) a b → List.Lex (· < ·) (a ++ c) (b ++ d) := by
  intro a b c d hlen hlex
  induction hlex generalizing c d with
  | nil => simp at hlen
  | rel hab => exact List.Lex.rel hab
  | cons _ ih =>
    simp only [List.length_cons, Nat.succ.injEq] at hlen
    exact List.Lex.cons (ih c d hlen)

theorem padData_length (w n : Nat) : (padData w n).length = w := by
  unfold padData
  simp [digitsFixed_length]

theorem padData_lex (w n m : Nat) (hnm : n < m) (hm : m < 10 ^ w) :
    ∀ c d : List Char, List.Lex (· < ·) (padData w n ++ c) (padData w m ++ d) := by
  intro c d
  apply lex_append_eqlen
  · rw [padData_length, padData_length]
  · exact lex_map_digitChar _ _ (digitsFixed_all_lt w n (by omega)) (digitsFixed_all_lt w m hm)
      (digitsFixed_lt w n m hnm hm)

theorem str_lt_iff (s t : String) : s < t ↔ List.Lex (· < ·) s.data t.data := by
  rw [String.lt_iff_toList_lt]
  exact Iff.rfl

/-! ## Rendering a sequence of fixed-width fields

Both `toISOString` and `makeFilename` concatenate fixed separators with
fixed-width zero-padded numeric fields; lexicographic order of the
rendered strings then follows lexicographic order of the field values. -/

/-- One rendered field: separator characters, then a fixed-width value. -/
def fieldsChars : List (List Char × Nat × Nat) → List Char
  | [] => []
  | f :: rest => f.1 ++ (padData f.2.1 f.2.2 ++ fieldsChars rest)

/-- The shape of a field list: separators and widths, without values. -/
def fieldShape (fs : List (List Char × Nat × Nat)) : List (List Char × Nat) :=
  fs.map (fun f => (f.1, f.2.1))

/-- The values of a field list. -/
def fieldVals (fs : List (List Char × Nat × Nat)) : List Nat :=
  fs.map (fun f => f.2.2)

theorem fieldsChars_lex : ∀ fs1 fs2 : List (List Char × Nat × Nat),
    fieldShape fs1 = fieldShape fs2 →
    (∀ f ∈ fs2, f.2.2 < 10 ^ f.2.1) →
    List.Lex (· < ·) (fieldVals fs1) (fieldVals fs2) →
    ∀ c d : List Char,
    List.Lex (· < ·) (fieldsChars fs1 ++ c) (fieldsChars fs2 ++ d) := by
  intro fs1
  induction fs1 with
  | nil =>
    intro fs2 hshape _ hvals c d
    cases fs2 with
    | nil => cases hvals
    | cons g gs => simp [fieldShape] at hshape
  | cons f fs ih =>
    intro fs2 hshape hbound hvals c d
    cases fs2 with
    | nil => simp [fieldShape] at hshape
    | cons g gs =>
      simp only [fieldShape, List.map_cons, List.cons.injEq, Prod.mk.injEq] at hshape
      obtain ⟨⟨hsep, hw⟩, hshape2⟩ := hshape
      simp only [fieldVals, List.map_cons] at hvals
      have hinv : f.2.2 < g.2.2 ∨ (f.2.2 = g.2.2 ∧
          List.Lex (· < ·) (fieldVals fs) (fieldVals gs)) := by
        unfold fieldVals
        generalize hA : f.2.2 = a at hvals ⊢
        generalize hB : g.2.2 = b at hvals ⊢
        cases hvals with
        | rel h => exact Or.inl h
        | cons h => exact Or.inr ⟨rfl, h⟩
      rcases hinv with hlt | ⟨heq, htail⟩
      · simp only [fieldsChars, List.append_assoc]
        rw [hsep, hw]
        apply lex_append_left
        exact padData_lex g.2.1 f.2.2 g.2.2 hlt
          (hbound g (List.mem_cons_self g gs)) _ _
      · simp only [fieldsChars, List.append_assoc]
        rw [hsep, hw, heq]
        apply lex_append_left
        apply lex_append_left
        exact ih gs hshape2 (fun x hx => hbound x (List.mem_cons_of_mem g hx))
          htail c d

/-- Field decomposition of `toISOString`. -/
def isoFields (t : Timestamp) : List (List Char × Nat × Nat) :=
  [([], 4, t.year), (['-'], 2, t.month), (['-'], 2, t.day), (['T'], 2, t.hour),
   ([':'], 2, t.minute), ([':'], 2, t.second), (['.'], 3, t.milli)]

/-- Field decomposition of `makeFilename` (the three random digits are the
final field). -/
def filenameFields (t : Timestamp) (r : Nat) : List (List Char × Nat × Nat) :=
  [([], 4, t.year), (['-'], 2, t.month), (['-'], 2, t.day), (['T'], 2, t.hour),
   ([], 2, t.minute), ([], 2, t.second), (['.'], 3, t.milli), ([], 3, r)]

theorem isoString_data (t : Timestamp) (hv : t.valid) :
    (isoString t).data = fieldsChars (isoFields t) ++ ['Z'] := by
  obtain ⟨hy1, hy2, hmo1, hmo2, hd1, hd2, hh, hmi, hs, hms⟩ := hv
  unfold isoString
  rw [jsNum_eq_padNum 3 t.year (by norm_num; omega) (by norm_num; omega),
    jsPad_eq_padNum 2 t.month (by omega) (by norm_num; omega),
    jsPad_eq_padNum 2 t.day (by omega) (by norm_num; omega),
    jsPad_eq_padNum 2 t.hour (by omega) (by norm_num; omega),
    jsPad_eq_padNum 2 t.minute (by omega) (by norm_num; omega),
    jsPad_eq_padNum 2 t.second (by omega) (by norm_num; omega),
    jsPad_eq_padNum 3 t.milli (by omega) (by norm_num; omega)]
  show padData 4 t.year ++ ['-'] ++ padData 2 t.month ++ ['-'] ++ padData 2 t.day ++
    ['T'] ++ padData 2 t.hour ++ [':'] ++ padData 2 t.minute ++ [':'] ++
    padData 2 t.second ++ ['.'] ++ padData 3 t.milli ++ ['Z'] = _
  simp [isoFields, fieldsChars, List.append_assoc]

theorem makeFilename_data (t : Timestamp) (r : Nat) (hv : t.valid) (hr : r ≤ 999) :
    (makeFilename t r).data =
      fieldsChars (filenameFields t r) ++ ['Z', '.', 'j', 's', 'o', 'n', 'l'] := by
  obtain ⟨hy1, hy2, hmo1, hmo2, hd1, hd2, hh, hmi, hs, hms⟩ := hv
  unfold makeFilename
  rw [jsNum_eq_padNum 3 t.year (by norm_num; omega) (by norm_num; omega),
    jsPad_eq_padNum 2 t.month (by omega) (by norm_num; omega),
    jsPad_eq_padNum 2 t.day (by omega) (by norm_num; omega),
    jsPad_eq_padNum 2 t.hour (by omega) (by norm_num; omega),
    jsPad_eq_padNum 2 t.minute (by omega) (by norm_num; omega),
    jsPad_eq_padNum 2 t.second (by omega) (by norm_num; omega),
    jsPad_eq_padNum 3 t.milli (by omega) (by norm_num; omega),
    jsPad_eq_padNum 3 r (by omega) (by norm_num; omega)]
  show padData 4 t.year ++ ['-'] ++ padData 2 t.month ++ ['-'] ++ padData 2 t.day ++
    ['T'] ++ padData 2 t.hour ++ padData 2 t.minute ++ padData 2 t.second ++
    ['.'] ++ padData 3 t.milli ++ padData 3 r ++ ['Z'] ++ ['.', 'j', 's', 'o', 'n', 'l'] = _
  simp [filenameFields, fieldsChars, List.append_assoc]

theorem earlier_lex_isoVals (t1 t2 : Timestamp) (he : t1.earlier t2) :
    List.Lex (· < ·) (fieldVals (isoFields t1)) (fieldVals (isoFields t2)) := by
  show List.Lex (· < ·)
    [t1.year, t1.month, t1.day, t1.hour, t1.minute, t1.second, t1.milli]
    [t2.year, t2.month, t2.day, t2.hour, t2.minute, t2.second, t2.milli]
  rcases he with h | ⟨e1, h | ⟨e2, h | ⟨e3, h | ⟨e4, h | ⟨e5, h | ⟨e6, h⟩⟩⟩⟩⟩⟩
  · exact List.Lex.rel h
  · rw [e1]; exact List.Lex.cons (List.Lex.rel h)
  · rw [e1, e2]; exact List.Lex.cons (List.Lex.cons (List.Lex.rel h))
  · rw [e1, e2, e3]
    exact List.Lex.cons (List.Lex.cons (List.Lex.cons (List.Lex.rel h)))
  · rw [e1, e2, e3, e4]
    exact List.Lex.cons (List.Lex.cons (List.Lex.cons (List.Lex.cons (List.Lex.rel h))))
  · rw [e1, e2, e3, e4, e5]
    exact List.Lex.cons (List.Lex.cons (List.Lex.cons (List.Lex.cons
      (List.Lex.cons (List.Lex.rel h)))))
  · rw [e1, e2, e3, e4, e5, e6]
    exact List.Lex.cons (List.Lex.cons (List.Lex.cons (List.Lex.cons
      (List.Lex.cons (List.Lex.cons (List.Lex.rel h))))))

theorem earlier_lex_filenameVals (t1 t2 : Timestamp) (r1 r2 : Nat) (he : t1.earlier t2) :
    List.Lex (· < ·) (fieldVals (filenameFields t1 r1)) (fieldVals (filenameFields t2 r2)) := by
  show List.Lex (· < ·)
    [t1.year, t1.month, t1.day, t1.hour, t1.minute, t1.second, t1.milli, r1]
    [t2.year, t2.month, t2.day, t2.hour, t2.minute, t2.second, t2.milli, r2]
  rcases he with h | ⟨e1, h | ⟨e2, h | ⟨e3, h | ⟨e4, h | ⟨e5, h | ⟨e6, h⟩⟩⟩⟩⟩⟩
  · exact List.Lex.rel h
  · rw [e1]; exact List.Lex.cons (List.Lex.rel h)
  · rw [e1, e2]; exact List.Lex.cons (List.Lex.cons (List.Lex.rel h))
  · rw [e1, e2, e3]
    exact List.Lex.cons (List.Lex.cons (List.Lex.cons (List.Lex.rel h)))
  · rw [e1, e2, e3, e4]
    exact List.Lex.cons (List.Lex.cons (List.Lex.cons (List.Lex.cons (List.Lex.rel h))))
  · rw [e1, e2, e3, e4, e5]
    exact List.Lex.cons (List.Lex.cons (List.Lex.cons (List.Lex.cons
      (List.Lex.cons (List.Lex.rel h)))))
  · rw [e1, e2, e3, e4, e5, e6]
    exact List.Lex.cons (List.Lex.cons (List.Lex.cons (List.Lex.cons
      (List.Lex.cons (List.Lex.cons (List.Lex.rel h))))))

theorem isoString_mono (t1 t2 : Timestamp) (h1 : t1.valid) (h2 : t2.valid)
    (he : t1.earlier t2) : isoString t1 < isoString t2 := by
  rw [str_lt_iff, isoString_data t1 h1, isoString_data t2 h2]
  apply fieldsChars_lex
  · rfl
  · obtain ⟨hy1, hy2, hmo1, hmo2, hd1, hd2, hh, hmi, hs, hms⟩ := h2
    intro f hf
    simp only [isoFields, List.mem_cons, List.not_mem_nil, or_false] at hf
    rcases hf with h | h | h | h | h | h | h <;> subst h <;> norm_num <;> omega
  · exact earlier_lex_isoVals t1 t2 he

theorem makeFilename_mono (t1 t2 : Timestamp) (r1 r2 : Nat)
    (h1 : t1.valid) (h2 : t2.valid) (hr1 : r1 ≤ 999) (hr2 : r2 ≤ 999)
    (he : t1.earlier t2) : makeFilename t1 r1 < makeFilename t2 r2 := by
  rw [str_lt_iff, makeFilename_data t1 r1 h1 hr1, makeFilename_data t2 r2 h2 hr2]
  apply fieldsChars_lex
  · rfl
  · obtain ⟨hy1, hy2, hmo1, hmo2, hd1, hd2, hh, hmi, hs, hms⟩ := h2
    intro f hf
    simp only [filenameFields, List.mem_cons, List.not_mem_nil, or_false] at hf
    rcases hf with h | h | h | h | h | h | h | h <;> subst h <;> norm_num <;> omega
  · exact earlier_lex_filenameVals t1 t2 r1 r2 he

theorem Timestamp.earlier_or (a b : Timestamp) (hne : a ≠ b) :
    a.earlier b ∨ b.earlier a := by
  cases a with
  | mk ay amo ad ah ami as ams =>
    cases b with
    | mk by2 bmo bd bh bmi bs bms =>
      simp only [ne_eq, Timestamp.mk.injEq, not_and] at hne
      simp only [Timestamp.earlier]
      by_contra hc
      push_neg at hc
      omega

theorem isoString_inj (t1 t2 : Timestamp) (h1 : t1.valid) (h2 : t2.valid)
    (hne : t1 ≠ t2) : isoString t1 ≠ isoString t2 := by
  rcases Timestamp.earlier_or t1 t2 hne with h | h
  · exact ne_of_lt (isoString_mono t1 t2 h1 h2 h)
  · exact (ne_of_lt (isoString_mono t2 t1 h2 h1 h)).symm

/-! ## Behaviour of the streaming tap -/

theorem stepTap_aret (sp : StreamSpec) (st : TapState) :
    stepTap sp st .aret = ({ st with innerDone := true }, [⟨.arr st.chunks, none⟩]) := rfl

theorem stepTap_onext_snd (sp : StreamSpec) (st : TapState) :
    (stepTap sp st .onext).2 = [] := by
  simp only [stepTap]
  split
  · rfl
  · split <;> rfl

theorem stepTap_anext_done (sp : StreamSpec) (st : TapState) (h : st.innerDone = true) :
    stepTap sp st .anext = (st, [⟨.arr st.chunks, none⟩]) := by
  simp [stepTap, h]

theorem stepTap_anext_yield (sp : StreamSpec) (st : TapState) (h : st.innerDone = false)
    (hlt : st.pos < sp.items.length) :
    stepTap sp st .anext =
      ({ st with
          pos := st.pos + 1
          chunks := st.chunks ++ [sp.items.get ⟨st.pos, hlt⟩] }, []) := by
  simp only [stepTap, h, Bool.false_eq_true, if_false]
  rw [dif_pos hlt]

theorem stepTap_anext_finish (sp : StreamSpec) (st : TapState) (h : st.innerDone = false)
    (hge : ¬ st.pos < sp.items.length) (hne : sp.tailErr = none) :
    stepTap sp st .anext = ({ st with innerDone := true }, [⟨.arr st.chunks, none⟩]) := by
  simp only [stepTap, h, Bool.false_eq_true, if_false]
  rw [dif_neg hge, hne]

theorem stepTap_anext_err (sp : StreamSpec) (st : TapState) (e : ErrorObj)
    (h : st.innerDone = false) (hge : ¬ st.pos < sp.items.length)
    (he : sp.tailErr = some e) :
    stepTap sp st .anext = ({ st with innerDone := true }, [⟨.null, some (errStr e)⟩]) := by
  simp only [stepTap, h, Bool.false_eq_true, if_false]
  rw [dif_neg hge, he]

/-- The tap state after running a list of consumer actions. -/
def driveState (sp : StreamSpec) : TapState → List StreamAct → TapState
  | st, [] => st
  | st, a :: rest => driveState sp (stepTap sp st a).1 rest

theorem driveFrom_append (sp : StreamSpec) :
    ∀ (acts bs : List StreamAct) (st : TapState),
    driveFrom sp st (acts ++ bs) =
      driveFrom sp st acts ++ driveFrom sp (driveState sp st acts) bs := by
  intro acts
  induction acts with
  | nil => intro bs st; rfl
  | cons a rest ih =>
    intro bs st
    show (stepTap sp st a).2 ++ driveFrom sp (stepTap sp st a).1 (rest ++ bs) =
      ((stepTap sp st a).2 ++ driveFrom sp (stepTap sp st a).1 rest) ++
        driveFrom sp (driveState sp (stepTap sp st a).1 rest) bs
    rw [ih bs (stepTap sp st a).1, List.append_assoc]

theorem driveFrom_onext (sp : StreamSpec) :
    ∀ (k : Nat) (st : TapState), driveFrom sp st (List.replicate k .onext) = [] := by
  intro k
  induction k with
  | zero => intro st; rfl
  | succ k ih =>
    intro st
    simp only [List.replicate_succ, driveFrom]
    rw [ih, stepTap_onext_snd]
    rfl

theorem driveFrom_drain (sp : StreamSpec) (hne : sp.tailErr = none) :
    ∀ (k : Nat) (st : TapState), st.innerDone = false →
    st.pos + k = sp.items.length → st.chunks = sp.items.take st.pos →
    driveFrom sp st (List.replicate (k + 1) .anext) = [⟨.arr sp.items, none⟩] := by
  intro k
  induction k with
  | zero =>
    intro st hdone hpos hch
    have hpos2 : st.pos = sp.items.length := by omega
    simp only [List.replicate_succ, List.replicate_zero, driveFrom]
    rw [stepTap_anext_finish sp st hdone (by omega) hne]
    simp only [driveFrom, List.append_nil]
    rw [hch, hpos2]
    simp
  | succ k ih =>
    intro st hdone hpos hch
    have hlt : st.pos < sp.items.length := by omega
    simp only [List.replicate_succ, driveFrom]
    rw [stepTap_anext_yield sp st hdone hlt]
    simp only [List.nil_append]
    apply ih
    · exact hdone
    · simp only
      omega
    · simp only [hch]
      rw [List.take_succ]
      congr 1
      rw [List.getElem?_eq_getElem hlt]
      simp

theorem driveFrom_return (sp : StreamSpec) :
    ∀ (k : Nat) (st : TapState), st.innerDone = false →
    st.pos + k ≤ sp.items.length → st.chunks = sp.items.take st.pos →
    driveFrom sp st (List.replicate k .anext ++ [.aret]) =
      [⟨.arr (sp.items.take (st.pos + k)), none⟩] := by
  intro k
  induction k with
  | zero =>
    intro st hdone hpos hch
    simp only [List.replicate_zero, List.nil_append, driveFrom]
    rw [stepTap_aret]
    simp [hch]
  | succ k ih =>
    intro st hdone hpos hch
    have hlt : st.pos < sp.items.length := by omega
    simp only [List.replicate_succ, List.cons_append, driveFrom]
    rw [stepTap_anext_yield sp st hdone hlt]
    simp only [List.nil_append, List.append_eq]
    rw [ih _ (by exact hdone) (by simp only; omega)
      (by simp only [hch]
          rw [List.take_succ]
          congr 1
          rw [List.getElem?_eq_getElem hlt]
          simp)]
    have harith : st.pos + 1 + k = st.pos + (k + 1) := by omega
    rw [harith]

theorem driveFrom_error (sp : StreamSpec) (e : ErrorObj) (he : sp.tailErr = some e) :
    ∀ (k : Nat) (st : TapState), st.innerDone = false →
    st.pos + k = sp.items.length →
    driveFrom sp st (List.replicate (k + 1) .anext) = [⟨.null, some (errStr e)⟩] := by
  intro k
  induction k with
  | zero =>
    intro st hdone hpos
    simp only [List.replicate_succ, List.replicate_zero, driveFrom]
    rw [stepTap_anext_err sp st e hdone (by omega) he]
    rfl
  | succ k ih =>
    intro st hdone hpos
    have hlt : st.pos < sp.items.length := by omega
    simp only [List.replicate_succ, driveFrom]
    rw [stepTap_anext_yield sp st hdone hlt]
    simp only [List.nil_append]
    apply ih
    · exact hdone
    · simp only
      omega

/-! ## Behaviour of the rotating-sink prune and rotation trigger -/

instance : IsTotal FileEnt (fun a b => a.name ≤ b.name) :=
  ⟨fun a b => le_total a.name b.name⟩

instance : IsTrans FileEnt (fun a b => a.name ≤ b.name) :=
  ⟨fun _ _ _ hab hbc => le_trans hab hbc⟩

theorem sortByName_sorted (l : List FileEnt) :
    (sortByName l).Sorted (fun a b => a.name ≤ b.name) :=
  List.sorted_insertionSort _ l

theorem sortByName_perm (l : List FileEnt) : (sortByName l).Perm l :=
  List.perm_insertionSort _ l

theorem pruneLoop_partition (current : Option String) (maxDir : Int) :
    ∀ (entries : List FileEnt) (total : Int),
    (pruneLoop current maxDir entries total).2 ++ (pruneLoop current maxDir entries total).1
      = entries := by
  intro entries
  induction entries with
  | nil => intro total; rfl
  | cons e rest ih =>
    intro total
    simp only [pruneLoop]
    by_cases h1 : total ≤ maxDir
    · simp [h1]
    · simp only [h1, if_false]
      by_cases h2 : current == some e.name
      · simp [h2]
      · simp only [h2, Bool.false_eq_true, if_false]
        simp only [List.cons_append, List.cons.injEq, true_and]
        exact ih (total - (e.size : Int))

theorem pruneLoop_current_kept (current : Option String) (maxDir : Int) :
    ∀ (entries : List FileEnt) (total : Int) (e : FileEnt),
    e ∈ (pruneLoop current maxDir entries total).2 → current ≠ some e.name := by
  intro entries
  induction entries with
  | nil => intro total e he; simp [pruneLoop] at he
  | cons f rest ih =>
    intro total e he
    simp only [pruneLoop] at he
    by_cases h1 : total ≤ maxDir
    · simp [h1] at he
    · simp only [h1, if_false] at he
      by_cases h2 : current == some f.name
      · simp [h2] at he
      · simp only [h2, Bool.false_eq_true, if_false] at he
        simp only [List.mem_cons] at he
        rcases he with h | h
        · subst h
          intro hc
          rw [hc] at h2
          simp at h2
        · exact ih (total - (f.size : Int)) e h

theorem pruneLoop_ceiling (current : Option String) (maxDir : Int) :
    ∀ (entries : List FileEnt) (total : Int), total = (totalSize entries : Int) →
    ((totalSize (pruneLoop current maxDir entries total).1 : Int) ≤ maxDir ∨
      (pruneLoop current maxDir entries total).1 = [] ∨
      ∃ e rest, (pruneLoop current maxDir entries total).1 = e :: rest ∧
        current = some e.name) := by
  intro entries
  induction entries with
  | nil => intro total _; right; left; rfl
  | cons f rest ih =>
    intro total htot
    simp only [pruneLoop]
    by_cases h1 : total ≤ maxDir
    · simp only [h1, if_true]
      left
      rw [← htot]
      exact h1
    · simp only [h1, if_false]
      by_cases h2 : current == some f.name
      · simp only [h2, if_true]
        right; right
        exact ⟨f, rest, rfl, by simpa using h2⟩
      · simp only [h2, Bool.false_eq_true, if_false]
        apply ih
        rw [htot]
        simp only [totalSize, List.map_cons, List.sum_cons]
        push_cast
        ring

/-! ## Idempotence facts for the sinks -/

theorem closeSink_idem (s : SinkSt) :
    closeSink (closeSink s).1 = ((closeSink s).1, []) := by
  cases s with
  | stream => rfl
  | file fd => cases fd <;> rfl
  | pipe fd => cases fd <;> rfl
  | rotating fd p sz => cases fd <;> rfl

theorem closeMany_idem (ss : List SinkSt) :
    closeMany (closeMany ss).1 = ((closeMany ss).1, []) := by
  unfold closeMany
  simp only [List.map_map]
  have h1 : List.map ((fun s => (closeSink s).1) ∘ fun s => (closeSink s).1) ss
      = List.map (fun s => (closeSink s).1) ss := by
    apply List.map_congr_left
    intro s _
    show (closeSink (closeSink s).1).1 = (closeSink s).1
    rw [closeSink_idem]
  have h2 : (List.map ((fun s => (closeSink s).2) ∘ fun s => (closeSink s).1) ss).flatten
      = ([] : List Nat) := by
    apply List.flatten_eq_nil_iff.mpr
    intro l hl
    simp only [List.mem_map, Function.comp] at hl
    obtain ⟨s, _, hs⟩ := hl
    rw [← hs]
    show (closeSink (closeSink s).1).2 = []
    rw [closeSink_idem]
  rw [h1, h2]

/-! ## Behaviour of the pipe-sink write -/

/-- Total bytes the OS reports written across a response script. -/
def sumWrote : List WriteRes → Nat
  | [] => 0
  | .wrote n :: rest => n + sumWrote rest
  | _ :: rest => sumWrote rest

/-- True unless the response is a disconnect or an unexpected error. -/
def isClean : WriteRes → Bool
  | .epipe => false
  | .werr _ => false
  | _ => true

/-- A script with neither a disconnect nor an unexpected error. -/
def cleanScript (script : List WriteRes) : Prop :=
  ∀ r ∈ script, isClean r = true

instance (script : List WriteRes) : Decidable (cleanScript script) := by
  unfold cleanScript
  infer_instance

theorem writeLoop_disconnect_closes (len : Nat) (st : PipeSt) :
    ∀ (script : List WriteRes) (offset : Nat),
    (writeLoop len st offset script).1 = .droppedDisconnect →
    (writeLoop len st offset script).2 = ⟨none⟩ := by
  intro script
  induction script with
  | nil =>
    intro offset h
    simp only [writeLoop] at h
    split at h <;> simp at h
  | cons r rest ih =>
    intro offset h
    simp only [writeLoop] at h ⊢
    by_cases hlen : len ≤ offset
    · simp [hlen] at h
    · simp only [hlen, if_false] at h ⊢
      cases r with
      | wrote n => exact ih (offset + n) h
      | eagain => exact ih offset h
      | epipe => rfl
      | werr c => simp at h

theorem writeLoop_flushes (len : Nat) (st : PipeSt) :
    ∀ (script : List WriteRes) (offset : Nat), cleanScript script →
    len ≤ offset + sumWrote script →
    ∃ f, writeLoop len st offset script = (.flushed f, st) ∧ len ≤ f := by
  intro script
  induction script with
  | nil =>
    intro offset _ hsum
    simp only [sumWrote] at hsum
    have hle : len ≤ offset := by omega
    exact ⟨offset, by simp [writeLoop, hle], hle⟩
  | cons r rest ih =>
    intro offset hclean hsum
    by_cases hlen : len ≤ offset
    · exact ⟨offset, by cases r <;> simp [writeLoop, hlen], hlen⟩
    · have hcr := hclean r (List.mem_cons_self r rest)
      have hcrest : cleanScript rest := fun x hx => hclean x (List.mem_cons_of_mem r hx)
      cases r with
      | wrote n =>
        simp only [writeLoop, hlen, if_false]
        apply ih (offset + n) hcrest
        simp only [sumWrote] at hsum
        omega
      | eagain =>
        simp only [writeLoop, hlen, if_false]
        apply ih offset hcrest
        simp only [sumWrote] at hsum
        omega
      | epipe => simp [isClean] at hcr
      | werr c => simp [isClean] at hcr

/-! ## Claim theorems -/

/-- C3: a wrapped call that throws synchronously or rejects with an Error
whose message is "boom" yields exactly one record with error "Error: boom"
and response null, and the caller observes the very same error object
re-thrown / re-rejected, with no substituted value. -/
theorem c3_error_fidelity_boom (e : ErrorObj) (hname : e.name = "Error")
    (hmsg : e.message = "boom") :
    (∀ acts, runWrapped (.throwE e) acts
      = ([⟨JSValue.null, some "Error: boom"⟩], .raised e)) ∧
    (∀ acts, runWrapped (.promiseRej e) acts
      = ([⟨JSValue.null, some "Error: boom"⟩], .rejected e)) := by
  have he : errStr e = "Error: boom" := by
    unfold errStr
    rw [hname, hmsg]
    decide
  exact ⟨fun acts => by simp [runWrapped, he], fun acts => by simp [runWrapped, he]⟩

/-- Witness for C3 at a concrete Error object. -/
theorem c3_error_fidelity_boom_witness :
    runWrapped (.throwE ⟨"Error", "boom", 7⟩) []
      = ([⟨JSValue.null, some "Error: boom"⟩], .raised ⟨"Error", "boom", 7⟩) :=
  (c3_error_fidelity_boom ⟨"Error", "boom", 7⟩ rfl rfl).1 []

/-- C4: the request field derivation.  Object-method calls: a single
non-null object argument is used verbatim, anything else is wrapped as
an args object.  Standalone calls: with two or more arguments whose
second is a non-null non-array object, the second argument is used,
anything else is wrapped. -/
theorem c4_request_derivation :
    (∀ a : JSValue, nonNullObject a → methodRequest [a] = a) ∧
    (∀ args : List JSValue, (∀ a, args = [a] → ¬ nonNullObject a) →
      methodRequest args = wrapArgs args) ∧
    (∀ (a b : JSValue) (rest : List JSValue), nonNullObject b → isArray b = false →
      standaloneRequest (a :: b :: rest) = b) ∧
    (∀ args : List JSValue,
      (∀ a b rest, args = a :: b :: rest → ¬ (nonNullObject b ∧ isArray b = false)) →
      standaloneRequest args = wrapArgs args) := by
  refine ⟨?_, ?_, ?_, ?_⟩
  · intro a ha
    obtain ⟨h1, h2⟩ := ha
    simp [methodRequest, h1, h2]
  · intro args h
    cases args with
    | nil => rfl
    | cons a rest =>
      cases rest with
      | nil =>
        have hna := h a rfl
        simp only [nonNullObject, not_and_or] at hna
        unfold methodRequest
        rw [if_neg]
        intro hcond
        obtain ⟨_, hc2, hc3⟩ := hcond
        rcases hna with h1 | h2
        · exact h1 hc2
        · apply h2
          simpa using hc3
      | cons b rest2 =>
        unfold methodRequest
        rw [if_neg]
        intro hcond
        obtain ⟨hc1, _⟩ := hcond
        simp at hc1
  · intro a b rest hb harr
    obtain ⟨h1, h2⟩ := hb
    have hlen : 2 ≤ (a :: b :: rest).length := by simp
    unfold standaloneRequest
    rw [if_pos ⟨hlen, by simpa using h2, by simpa using h1, by simpa using harr⟩]
    rfl
  · intro args h
    cases args with
    | nil => rfl
    | cons a rest =>
      cases rest with
      | nil => rfl
      | cons b rest2 =>
        have hnb := h a b rest2 rfl
        unfold standaloneRequest
        rw [if_neg]
        intro hcond
        obtain ⟨_, hc2, hc3, hc4⟩ := hcond
        apply hnb
        constructor
        · exact ⟨by simpa using hc3, by simpa using hc2⟩
        · simpa using hc4

/-- Witness for C4: each branch of the derivation at a concrete input. -/
theorem c4_request_derivation_witness :
    methodRequest [JSValue.obj [("model", JSValue.str "m")]]
      = JSValue.obj [("model", JSValue.str "m")] ∧
    methodRequest [JSValue.str "x", JSValue.str "y"]
      = wrapArgs [JSValue.str "x", JSValue.str "y"] ∧
    standaloneRequest [JSValue.str "model", JSValue.obj []] = JSValue.obj [] ∧
    standaloneRequest [JSValue.str "model", JSValue.num 42]
      = wrapArgs [JSValue.str "model", JSValue.num 42] := by
  refine ⟨c4_request_derivation.1 _ ⟨rfl, rfl⟩, ?_, ?_, ?_⟩
  · apply c4_request_derivation.2.1
    intro a ha
    simp at ha
  · exact c4_request_derivation.2.2.1 (JSValue.str "model") (JSValue.obj []) [] ⟨rfl, rfl⟩ rfl
  · apply c4_request_derivation.2.2.2
    intro a b rest heq
    simp only [List.cons.injEq] at heq
    obtain ⟨_, hb, _⟩ := heq
    intro hc
    rw [← hb] at hc
    obtain ⟨⟨h1, _⟩, _⟩ := hc
    simp [typeofIsObject] at h1

/-- C10: on the object-method path a single array argument is a non-null
object and is therefore used verbatim as the request; only the
standalone path excludes arrays; hence a record request need not be a
plain key-value mapping. -/
theorem c10_array_request_verbatim :
    (∀ xs : List JSValue, methodRequest [JSValue.arr xs] = JSValue.arr xs) ∧
    (∀ (a : JSValue) (xs : List JSValue),
      standaloneRequest [a, JSValue.arr xs] = wrapArgs [a, JSValue.arr xs]) ∧
    isPlainObject (methodRequest [JSValue.arr []]) = false := by
  refine ⟨?_, ?_, rfl⟩
  · intro xs
    simp [methodRequest, typeofIsObject, isNull]
  · intro a xs
    unfold standaloneRequest
    rw [if_neg]
    intro hcond
    obtain ⟨_, _, _, hc4⟩ := hcond
    simp [isArray] at hc4

/-- C5: wrapping an object whose type name is not in the method registry,
with no explicit method list, raises the configuration error at wrap
time: the result is the error, so no method is patched and no record is
written. -/
theorem c5_unknown_client_config_error (clientName : String)
    (hreg : ∀ p ∈ METHOD_REGISTRY, p.1 ≠ clientName) (clientMethods : List String) :
    shuntObject clientMethods clientName none =
      .error ("Unknown client \"" ++ clientName ++
        "\". Pass methods option to specify which methods to patch.") := by
  have hfind : METHOD_REGISTRY.find?
      (fun (p : String × List String) => p.1 == clientName) = none := by
    apply List.find?_eq_none.mpr
    intro p hp
    simp [hreg p hp]
  simp [shuntObject, hfind]

/-- Witness for C5 at the unregistered type name "Unknown". -/
theorem c5_unknown_client_config_error_witness :
    shuntObject ["foo"] "Unknown" none =
      .error ("Unknown client \"" ++ "Unknown" ++
        "\". Pass methods option to specify which methods to patch.") :=
  c5_unknown_client_config_error "Unknown" (by decide) ["foo"]

/-- C1 counterexample: the claim "exactly one record per invocation, never
zero and never more than one, no matter how the consumer drives the
sequence" fails on the code.  Abandoning the tapped iterator without
calling return fires the completion callback zero times (no record), and
calling next again after the sequence has completed fires it a second
time (two records). -/
theorem c1_capture_exactly_once_counterexample :
    ¬ ((runWrapped (.retStream ⟨[], none⟩) []).1.length = 1) ∧
    (runWrapped (.retStream ⟨[], none⟩) [.anext, .anext]).1.length = 2 := by
  constructor
  · decide
  · decide

/-- C1 amended: plain-value, promise and error outcomes write exactly one
record; a tapped sequence yields exactly one record provided the consumer
stops at its first terminal event — a full drain stopping at done, an
early return, or a mid-stream error — and re-iterating the sequence via a
second call to the iterator entry point adds no records; the
promise-delivered stream behaves exactly like the direct one. -/
theorem c1_capture_exactly_once_amended :
    (∀ (v : JSValue) (acts : List StreamAct),
      (runWrapped (.retVal v) acts).1.length = 1 ∧
      (runWrapped (.promiseVal v) acts).1.length = 1) ∧
    (∀ (e : ErrorObj) (acts : List StreamAct),
      (runWrapped (.throwE e) acts).1.length = 1 ∧
      (runWrapped (.promiseRej e) acts).1.length = 1) ∧
    (∀ sp : StreamSpec, sp.tailErr = none →
      (runWrapped (.retStream sp) (List.replicate (sp.items.length + 1) .anext)).1
        = [⟨.arr sp.items, none⟩]) ∧
    (∀ (sp : StreamSpec) (k : Nat), sp.tailErr = none → k ≤ sp.items.length →
      (runWrapped (.retStream sp) (List.replicate k .anext ++ [.aret])).1
        = [⟨.arr (sp.items.take k), none⟩]) ∧
    (∀ (sp : StreamSpec) (e : ErrorObj), sp.tailErr = some e →
      (runWrapped (.retStream sp) (List.replicate (sp.items.length + 1) .anext)).1
        = [⟨.null, some (errStr e)⟩]) ∧
    (∀ (sp : StreamSpec) (acts : List StreamAct) (k : Nat),
      (runWrapped (.retStream sp) (acts ++ List.replicate k .onext)).1
        = (runWrapped (.retStream sp) acts).1) ∧
    (∀ (sp : StreamSpec) (acts : List StreamAct),
      (runWrapped (.promiseStream sp) acts).1 = (runWrapped (.retStream sp) acts).1) := by
  refine ⟨fun v acts => ⟨rfl, rfl⟩, fun e acts => ⟨rfl, rfl⟩, ?_, ?_, ?_, ?_, fun sp acts => rfl⟩
  · intro sp hne
    show driveFrom sp ⟨0, false, []⟩ (List.replicate (sp.items.length + 1) .anext) = _
    exact driveFrom_drain sp hne sp.items.length ⟨0, false, []⟩ rfl (by simp) rfl
  · intro sp k hne hk
    show driveFrom sp ⟨0, false, []⟩ (List.replicate k .anext ++ [.aret]) = _
    have h := driveFrom_return sp k ⟨0, false, []⟩ rfl (by simpa using hk) rfl
    simpa using h
  · intro sp e he
    show driveFrom sp ⟨0, false, []⟩ (List.replicate (sp.items.length + 1) .anext) = _
    exact driveFrom_error sp e he sp.items.length ⟨0, false, []⟩ rfl (by simp)
  · intro sp acts k
    show driveFrom sp ⟨0, false, []⟩ (acts ++ List.replicate k .onext)
      = driveFrom sp ⟨0, false, []⟩ acts
    rw [driveFrom_append, driveFrom_onext]
    simp

/-- Witness for C1 amended: a drained two-item stream, an early return
after one item, and a stream that errors immediately, each produce the
single expected record. -/
theorem c1_capture_exactly_once_amended_witness :
    (runWrapped (.retStream ⟨[JSValue.num 1, JSValue.num 2], none⟩)
        (List.replicate 3 .anext)).1
      = [⟨.arr [JSValue.num 1, JSValue.num 2], none⟩] ∧
    (runWrapped (.retStream ⟨[JSValue.num 1, JSValue.num 2], none⟩)
        (List.replicate 1 .anext ++ [.aret])).1
      = [⟨.arr [JSValue.num 1], none⟩] ∧
    (runWrapped (.retStream ⟨[], some ⟨"Error", "boom", 0⟩⟩)
        (List.replicate 1 .anext)).1
      = [⟨.null, some (errStr ⟨"Error", "boom", 0⟩)⟩] := by
  refine ⟨?_, ?_, ?_⟩
  · have h := c1_capture_exactly_once_amended.2.2.1
      ⟨[JSValue.num 1, JSValue.num 2], none⟩ rfl
    simpa using h
  · have h := c1_capture_exactly_once_amended.2.2.2.1
      ⟨[JSValue.num 1, JSValue.num 2], none⟩ 1 rfl (by norm_num)
    simpa using h
  · have h := c1_capture_exactly_once_amended.2.2.2.2.1
      ⟨[], some ⟨"Error", "boom", 0⟩⟩ ⟨"Error", "boom", 0⟩ rfl
    simpa using h

/-- C2 counterexample: the record timestamp is not the capture-start
instant.  A call that starts at one wall-clock instant and completes five
milliseconds later is stamped with the completion instant, which renders
differently from the start instant. -/
theorem c2_timestamp_capture_start_counterexample :
    (recordAndWrite ⟨0, 5, ⟨2025, 1, 15, 12, 0, 0, 0⟩, ⟨2025, 1, 15, 12, 0, 0, 5⟩⟩
        ⟨"host", "user", 1⟩ "C" "m" JSValue.null JSValue.null none).timestamp
      ≠ isoString ⟨2025, 1, 15, 12, 0, 0, 0⟩ := by
  decide

/-- C2 amended: the record timestamp is the ISO-8601 millisecond-precision
rendering of the wall clock at record construction, i.e. the completion
of the invocation, not its start; the rendering is 24 characters and is
injective on valid instants, so millisecond precision is faithful. -/
theorem c2_timestamp_build_instant :
    (∀ (tm : InvocationTimes) (ident : ProcIdentity) (client method : String)
        (request response : JSValue) (error : Option String),
      (recordAndWrite tm ident client method request response error).timestamp
        = isoString tm.wallEnd) ∧
    (∀ t : Timestamp, t.valid → (isoString t).length = 24) ∧
    (∀ t1 t2 : Timestamp, t1.valid → t2.valid → t1 ≠ t2 →
      isoString t1 ≠ isoString t2) := by
  refine ⟨fun tm ident c m rq rs e => rfl, ?_, isoString_inj⟩
  intro t hv
  have hd := isoString_data t hv
  show (isoString t).data.length = 24
  rw [hd]
  simp [isoFields, fieldsChars, padData_length]

/-- Witness for C2 amended at concrete instants five milliseconds apart. -/
theorem c2_timestamp_build_instant_witness :
    (recordAndWrite ⟨0, 5, ⟨2025, 1, 15, 12, 0, 0, 0⟩, ⟨2025, 1, 15, 12, 0, 0, 5⟩⟩
        ⟨"host", "user", 1⟩ "C" "m" JSValue.null JSValue.null none).timestamp
      = isoString ⟨2025, 1, 15, 12, 0, 0, 5⟩ ∧
    (isoString ⟨2025, 1, 15, 12, 0, 0, 5⟩).length = 24 ∧
    isoString ⟨2025, 1, 15, 12, 0, 0, 0⟩ ≠ isoString ⟨2025, 1, 15, 12, 0, 0, 5⟩ := by
  refine ⟨c2_timestamp_build_instant.1 _ _ _ _ _ _ _,
    c2_timestamp_build_instant.2.1 _ (by decide),
    c2_timestamp_build_instant.2.2 _ _ (by decide) (by decide) (by decide)⟩

/-- C6: pruning of the rotating sink.  A non-positive directory ceiling
disables pruning entirely; pruning runs only on the rotation path of
ensureOpen (an open file below the per-file limit, or a first open,
deletes nothing); when it runs, the qualifying entries are sorted
oldest-first by name, the deleted files are an oldest-first prefix of
that order, the file currently open for append is never deleted, and
deletion continues until the total size is within the ceiling unless the
loop is blocked by the current file or runs out of entries. -/
theorem c6_rotating_prune_policy :
    (∀ files current maxDir, maxDir ≤ 0 → prune files current maxDir = (files, [])) ∧
    (∀ (st : RotState) (newName : String) (newFd : Nat),
      st.fd ≠ none → st.fileSize < st.maxBytesFile →
      ensureOpen st newName newFd = st) ∧
    (∀ (st : RotState) (newName : String) (newFd : Nat), st.fd = none →
      ensureOpen st newName newFd = openNewFile st newName newFd) ∧
    (∀ files current maxDir, ¬ maxDir ≤ 0 →
      prune files current maxDir =
        (files.filter (fun f => !(f.name.endsWith ".jsonl")) ++
          (pruneLoop current maxDir
            (sortByName (files.filter (fun f => f.name.endsWith ".jsonl")))
            ((totalSize (sortByName (files.filter (fun f => f.name.endsWith ".jsonl"))) : Int))).1,
         (pruneLoop current maxDir
            (sortByName (files.filter (fun f => f.name.endsWith ".jsonl")))
            ((totalSize (sortByName (files.filter (fun f => f.name.endsWith ".jsonl"))) : Int))).2)) ∧
    (∀ l : List FileEnt, (sortByName l).Sorted (fun a b => a.name ≤ b.name)) ∧
    (∀ (current : Option String) (maxDir : Int) (entries : List FileEnt) (total : Int),
      (pruneLoop current maxDir entries total).2
        ++ (pruneLoop current maxDir entries total).1 = entries) ∧
    (∀ (current : Option String) (maxDir : Int) (entries : List FileEnt) (total : Int)
        (e : FileEnt), e ∈ (pruneLoop current maxDir entries total).2 →
      current ≠ some e.name) ∧
    (∀ (current : Option String) (maxDir : Int) (entries : List FileEnt),
      (totalSize (pruneLoop current maxDir entries ((totalSize entries : Int))).1 : Int) ≤ maxDir ∨
      (pruneLoop current maxDir entries ((totalSize entries : Int))).1 = [] ∨
      ∃ e rest, (pruneLoop current maxDir entries ((totalSize entries : Int))).1 = e :: rest ∧
        current = some e.name) := by
  refine ⟨?_, ?_, ?_, ?_, sortByName_sorted, pruneLoop_partition, ?_, ?_⟩
  · intro files current maxDir h
    simp [prune, h]
  · intro st newName newFd hfd hsize
    unfold ensureOpen
    cases hf : st.fd with
    | none => exact absurd hf hfd
    | some k =>
      rw [if_neg (by omega)]
  · intro st newName newFd hfd
    unfold ensureOpen
    rw [hfd]
  · intro files current maxDir h
    simp [prune, h]
  · intro current maxDir entries total e he
    exact pruneLoop_current_kept current maxDir entries total e he
  · intro current maxDir entries
    exact pruneLoop_ceiling current maxDir entries _ rfl

/-- Witness for C6: disabled pruning, a no-rotation write path, an
enabled prune run, and a concrete deletion kept away from the current
file. -/
theorem c6_rotating_prune_policy_witness :
    prune [⟨"a.jsonl", 5⟩] none (-1) = ([⟨"a.jsonl", 5⟩], []) ∧
    ensureOpen ⟨some 3, some "x.jsonl", 2, 10, 100, [⟨"x.jsonl", 2⟩]⟩ "y.jsonl" 4
      = ⟨some 3, some "x.jsonl", 2, 10, 100, [⟨"x.jsonl", 2⟩]⟩ ∧
    (none : Option String) ≠ some (⟨"a.jsonl", 5⟩ : FileEnt).name ∧
    prune [⟨"b.jsonl", 7⟩] (some "b.jsonl") 6 =
      (([⟨"b.jsonl", 7⟩] : List FileEnt).filter (fun f => !(f.name.endsWith ".jsonl")) ++
        (pruneLoop (some "b.jsonl") 6
          (sortByName (([⟨"b.jsonl", 7⟩] : List FileEnt).filter (fun f => f.name.endsWith ".jsonl")))
          ((totalSize (sortByName (([⟨"b.jsonl", 7⟩] : List FileEnt).filter
            (fun f => f.name.endsWith ".jsonl"))) : Int))).1,
       (pruneLoop (some "b.jsonl") 6
          (sortByName (([⟨"b.jsonl", 7⟩] : List FileEnt).filter (fun f => f.name.endsWith ".jsonl")))
          ((totalSize (sortByName (([⟨"b.jsonl", 7⟩] : List FileEnt).filter
            (fun f => f.name.endsWith ".jsonl"))) : Int))).2) := by
  refine ⟨c6_rotating_prune_policy.1 _ none (-1) (by norm_num),
    c6_rotating_prune_policy.2.1 _ "y.jsonl" 4 (by simp) (by norm_num), ?_, ?_⟩
  · apply c6_rotating_prune_policy.2.2.2.2.2.2.1 none 1 [⟨"a.jsonl", 5⟩] 5
    decide
  · exact c6_rotating_prune_policy.2.2.2.1 [⟨"b.jsonl", 7⟩] (some "b.jsonl") 6 (by norm_num)

/-- C7 counterexample: within one clock millisecond the three random
digits decide the order, so a file created earlier (random suffix 999)
can get a lexically larger name than one created later in the same
millisecond (random suffix 000). -/
theorem c7_filename_same_milli_counterexample :
    makeFilename ⟨2025, 2, 15, 21, 5, 30, 482⟩ 999
      ≠ makeFilename ⟨2025, 2, 15, 21, 5, 30, 482⟩ 0 ∧
    ¬ (makeFilename ⟨2025, 2, 15, 21, 5, 30, 482⟩ 999
      < makeFilename ⟨2025, 2, 15, 21, 5, 30, 482⟩ 0) ∧
    makeFilename ⟨2025, 2, 15, 21, 5, 30, 482⟩ 0
      < makeFilename ⟨2025, 2, 15, 21, 5, 30, 482⟩ 999 := by
  refine ⟨by decide, ?_, ?_⟩
  · rw [str_lt_iff]
    decide
  · rw [str_lt_iff]
    decide

/-- C7 amended: for files whose creation instants differ at millisecond
resolution, the earlier instant always yields the lexically smaller
name; only within a single millisecond can the random suffix disagree
with creation order. -/
theorem c7_filename_lexical_chronological (t1 t2 : Timestamp) (r1 r2 : Nat)
    (h1 : t1.valid) (h2 : t2.valid) (hr1 : r1 ≤ 999) (hr2 : r2 ≤ 999)
    (he : t1.earlier t2) : makeFilename t1 r1 < makeFilename t2 r2 :=
  makeFilename_mono t1 t2 r1 r2 h1 h2 hr1 hr2 he

/-- Witness for C7 amended at two instants one millisecond apart, with
adversarial random suffixes. -/
theorem c7_filename_lexical_chronological_witness :
    makeFilename ⟨2025, 2, 15, 21, 5, 30, 482⟩ 999
      < makeFilename ⟨2025, 2, 15, 21, 5, 30, 483⟩ 0 :=
  c7_filename_lexical_chronological ⟨2025, 2, 15, 21, 5, 30, 482⟩
    ⟨2025, 2, 15, 21, 5, 30, 483⟩ 999 0 (by decide) (by decide) (by decide)
    (by decide) (by decide)

/-- C8: close is idempotent for every sink: the stream, file, pipe and
rotating sinks release their descriptor on the first close and reset
their descriptor state, so the second close closes nothing; the fan-out
sink inherits this from its children. -/
theorem c8_sink_close_idempotent :
    (∀ s : SinkSt, closeSink (closeSink s).1 = ((closeSink s).1, [])) ∧
    (∀ ss : List SinkSt, closeMany (closeMany ss).1 = ((closeMany ss).1, [])) ∧
    (∀ (s : SinkSt) (k : Nat) (p : Option String) (sz : Nat),
      (closeSink s).1 ≠ .file (some k) ∧ (closeSink s).1 ≠ .pipe (some k) ∧
      (closeSink s).1 ≠ .rotating (some k) p sz) := by
  refine ⟨closeSink_idem, closeMany_idem, ?_⟩
  intro s k p sz
  cases s with
  | stream => exact ⟨by simp [closeSink], by simp [closeSink], by simp [closeSink]⟩
  | file fd => cases fd <;> exact ⟨by simp [closeSink], by simp [closeSink], by simp [closeSink]⟩
  | pipe fd => cases fd <;> exact ⟨by simp [closeSink], by simp [closeSink], by simp [closeSink]⟩
  | rotating fd fp fsz =>
    cases fd <;> exact ⟨by simp [closeSink], by simp [closeSink], by simp [closeSink]⟩

/-- C9: the pipe-sink write.  With no reader attached the record is
silently dropped and write returns normally; a disconnect mid-write
closes the descriptor and drops the record, and the next write attempts
to reopen; partial writes are retried until the whole line is flushed
when the OS keeps accepting; any other I/O error is re-raised, both from
the open and from the write loop. -/
theorem c9_pipe_write_semantics :
    (∀ len script, pipeWrite ⟨none⟩ len .enxio script
      = .ok (.droppedNoReader, ⟨none⟩, true)) ∧
    (∀ len st offset script, (writeLoop len st offset script).1 = .droppedDisconnect →
      (writeLoop len st offset script).2 = ⟨none⟩) ∧
    (∀ len script r, (∃ c, r = OpenRes.oerr c ∧ pipeWrite ⟨none⟩ len r script = .error c) ∨
      (∃ out, pipeWrite ⟨none⟩ len r script = .ok out ∧ out.2.2 = true)) ∧
    (∀ len script, cleanScript script → len ≤ sumWrote script →
      ∀ k openR, ∃ f, pipeWrite ⟨some k⟩ len openR script
        = .ok (.flushed f, ⟨some k⟩, false) ∧ len ≤ f) ∧
    (∀ (len : Nat) (c : String) (script : List WriteRes) (st0 : PipeSt), 0 < len →
      writeLoop len st0 0 (.werr c :: script) = (.raised c, st0)) ∧
    (∀ len c script, pipeWrite ⟨none⟩ len (.oerr c) script = .error c) := by
  refine ⟨fun len script => rfl,
    fun len st offset script => writeLoop_disconnect_closes len st script offset, ?_, ?_, ?_,
    fun len c script => rfl⟩
  · intro len script r
    cases r with
    | fd k => exact Or.inr ⟨_, rfl, rfl⟩
    | enxio => exact Or.inr ⟨_, rfl, rfl⟩
    | oerr c => exact Or.inl ⟨c, rfl, rfl⟩
  · intro len script hclean hsum k openR
    obtain ⟨f, hrun, hle⟩ := writeLoop_flushes len ⟨some k⟩ script 0 hclean (by omega)
    refine ⟨f, ?_, hle⟩
    show Except.ok ((writeLoop len ⟨some k⟩ 0 script).1, (writeLoop len ⟨some k⟩ 0 script).2, false)
      = Except.ok (PipeOutcome.flushed f, (⟨some k⟩ : PipeSt), false)
    rw [hrun]
  · intro len c script st0 hlen
    simp only [writeLoop]
    rw [if_neg (by omega)]

/-- Witness for C9: a disconnect mid-write, a retried flush, and an
unexpected error at a concrete script. -/
theorem c9_pipe_write_semantics_witness :
    (writeLoop 5 ⟨some 3⟩ 0 [.epipe]).2 = ⟨none⟩ ∧
    (∃ f, pipeWrite ⟨some 3⟩ 5 (.fd 3) [.wrote 2, .eagain, .wrote 3]
      = .ok (.flushed f, ⟨some 3⟩, false) ∧ 5 ≤ f) ∧
    writeLoop 4 ⟨some 7⟩ 0 [.werr "EACCES", .eagain] = (.raised "EACCES", ⟨some 7⟩) := by
  refine ⟨c9_pipe_write_semantics.2.1 5 ⟨some 3⟩ 0 [.epipe] (by decide),
    c9_pipe_write_semantics.2.2.2.1 5 [.wrote 2, .eagain, .wrote 3] (by decide) (by decide) 3 (.fd 3),
    c9_pipe_write_semantics.2.2.2.2.1 4 "EACCES" [.eagain] ⟨some 7⟩ (by norm_num)⟩

end Shuntly
